import Mathlib

/-!
Verification of the row-grouping engine of RevoGrid
(src/plugins/groupingRow/grouping.row.plugin.ts).

The plugin file is embedded faithfully below.  Its collaborators
(grouping.service, grouping.row.expand.service, the data store and the
data/column providers) are not part of the given sources; they are
modelled from the specification, and every such definition carries a
doc comment starting with "Modelled from the spec:".
-/

namespace RevoGrouping

/-- Modelled from the spec: the record type (spec section 9 asks for a
tagged variant in place of the duck-typed marker fields).  A data row is
an open field map (field id to value); a group-header row carries the
group key value (PSEUDO_GROUP_ITEM_VALUE; an `Option Nat` because a key
extractor may yield an undefined field), its nesting depth, the expanded
flag (GROUP_EXPANDED) and the ordered list of direct child physical
indices (spec section 3: "an ordered list of child physical indices"). -/
inductive Record where
  | data (fields : List (Nat × Nat))
  | group (value : Option Nat) (depth : Nat) (expanded : Bool) (children : List Nat)
deriving DecidableEq

/-- Modelled from the spec: grouping.service isGrouping (not under src/),
the check that a record is a synthetic group header (spec section 9:
engine logic pattern-matches on the tag). -/
def isGrouping : Record → Bool
  | Record.group _ _ _ _ => true
  | Record.data _ => false

/-- Reading model[GROUP_EXPANDED]: on a data row the marker field is
undefined, hence falsy (plugin line 52 relies on this). -/
def groupExpanded : Record → Bool
  | Record.group _ _ e _ => e
  | Record.data _ => false

/-- Reading model[PSEUDO_GROUP_ITEM_VALUE] on a group header. -/
def groupKeyValue : Record → Option Nat
  | Record.group v _ _ _ => v
  | Record.data _ => none

/-- Field access item[key]: undefined (`none`) when the field is absent
or the record is a synthetic header (headers carry no data fields). -/
def fieldOf : Record → Nat → Option Nat
  | Record.data fs, k => fs.lookup k
  | Record.group _ _ _ _, _ => none

/-- Indexing l[i] on an ordered sequence: `some` the element when the
index is in range, undefined (`none`) otherwise. -/
def getAt {α : Type} (l : List α) (i : Nat) : Option α :=
  l.get? i

/-- JavaScript object update m[k] = v on a finite map represented as an
association list: replace the first binding of k, else append. -/
def upsert {α β : Type} [BEq α] : List (α × β) → α → β → List (α × β)
  | [], k, v => [(k, v)]
  | (k', v') :: rest, k, v =>
      if k' == k then (k, v) :: rest else (k', v') :: upsert rest k v

/-- JavaScript object spread of two finite maps: entries of the second
override entries of the first. -/
def mergeMap {α β : Type} [BEq α] (a b : List (α × β)) : List (α × β) :=
  b.foldl (fun acc kv => upsert acc kv.1 kv.2) a

/-- Modelled from the spec: the row store of the data provider (spec
section 6): the record sequence ("source"), the proxy order index list
("proxyItems"), the display order index list ("items"), and the named
hidden-row map ("trimmed") keyed by namespace string. -/
structure RowStore where
  source : List Record
  proxyItems : List Nat
  items : List Nat
  trimmed : List (String × List (Nat × Bool))
deriving DecidableEq

/-- The namespace string TRIMMED_GROUPING = 'grouping' (plugin line 12). -/
def tGROUPING : String := "grouping"

/-- Look a namespace up in the named hidden-row map (an absent namespace
reads as the empty map, as spreading undefined does in JavaScript). -/
def nsGet (t : List (String × List (Nat × Bool))) (ns : String) : List (Nat × Bool) :=
  (t.lookup ns).getD []

/-- Modelled from the spec: revogrid.addTrimmed (spec section 6): write
the given map under the given namespace of the named hidden-row map,
leaving every other namespace alone. -/
def addTrimmed (row : RowStore) (m : List (Nat × Bool)) (ns : String) : RowStore :=
  { row with trimmed := upsert row.trimmed ns m }

/-- A grid column; groupingColumn models the PSEUDO_GROUP_COLUMN flag. -/
structure Column where
  colId : Nat
  groupingColumn : Bool
deriving DecidableEq

/-- Modelled from the spec: the three column areas, listed in the fixed
priority order of the column-indicator selection policy (spec section
4.3: row-header/pinned-start area first, then regular/data area, then
pinned-end area); columnTypes of store/storeTypes is not under src/. -/
structure ColumnAreas where
  pinStart : List Column
  regular : List Column
  pinEnd : List Column
deriving DecidableEq

/-- The three column area labels in priority order. -/
inductive ColType where
  | pinStart
  | regular
  | pinEnd
deriving DecidableEq

/-- Modelled from the spec: the columnTypes constant, in the fixed
priority order of spec section 4.3. -/
def columnTypes : List ColType := [ColType.pinStart, ColType.regular, ColType.pinEnd]

/-- Column list of one area. -/
def getColumns (a : ColumnAreas) : ColType → List Column
  | ColType.pinStart => a.pinStart
  | ColType.regular => a.regular
  | ColType.pinEnd => a.pinEnd

/-- Replace the column list of one area. -/
def setColumnsOf (a : ColumnAreas) : ColType → List Column → ColumnAreas
  | ColType.pinStart, cs => { a with pinStart := cs }
  | ColType.regular, cs => { a with regular := cs }
  | ColType.pinEnd, cs => { a with pinEnd := cs }

/-- The whole grid state the plugin acts on: the row store, the column
areas, the focus (physical index of the focused record, if any), the
plugin options (the grouping props, i.e. the ordered field ids; `none`
when setGrouping was never called), the host default expansion policy
(revogrid.grouping, read by onDataSet), and the published depth. -/
structure GridState where
  row : RowStore
  columns : ColumnAreas
  focus : Option Nat
  options : Option (List Nat)
  hostExpandedAll : Bool
  depth : Nat
deriving DecidableEq

/-- The intermediate accumulator of getSource (SourceGather of
grouping.row.types): the gathered records and the expansion memory. -/
structure SourceGather where
  source : List Record
  prevExpanded : List (Option Nat × Bool)
deriving DecidableEq

/-- The reduce body of GroupingRowPlugin.getSource (plugin lines 76-98),
written as structural recursion over the proxy index list: push every
record when withoutGrouping is false; otherwise push only non-header
records and, for every expanded group header, record
prevExpanded[value] = true.  Collapsed headers leave no entry. -/
def gatherStep (source : List Record) (withoutGrouping : Bool) (acc : SourceGather) (i : Nat) :
    SourceGather :=
  match getAt source i with
  | none => acc
  | some m =>
      if !withoutGrouping then { acc with source := acc.source ++ [m] }
      else if !(isGrouping m) then { acc with source := acc.source ++ [m] }
      else if groupExpanded m then
        { acc with prevExpanded := upsert acc.prevExpanded (groupKeyValue m) true }
      else acc

/-- The reduce of getSource over the proxy index list. -/
def gatherLoop (source : List Record) (withoutGrouping : Bool) :
    SourceGather → List Nat → SourceGather
  | acc, [] => acc
  | acc, i :: rest => gatherLoop source withoutGrouping (gatherStep source withoutGrouping acc i) rest

/-- GroupingRowPlugin.getSource (plugin lines 71-99): gather the source
in the order given by the row store's proxy-items index list. -/
def getSourceGather (row : RowStore) (withoutGrouping : Bool) : SourceGather :=
  gatherLoop row.source withoutGrouping { source := [], prevExpanded := [] } row.proxyItems

/-- Modelled from the spec: getPhysical of store/dataSource/data.store
(not under src/), the physical-index lookup from a virtual/display index
(spec section 6). -/
def getPhysical (row : RowStore) (virtualIndex : Nat) : Option Nat :=
  getAt row.items virtualIndex

/-- Modelled from the spec: setItems of store/dataSource/data.store (not
under src/): replace the display order index list. -/
def setItemsRow (row : RowStore) (its : List Nat) : RowStore :=
  { row with items := its }

/-- Drop one namespace from the named hidden-row map. -/
def removeNs (t : List (String × List (Nat × Bool))) (ns : String) :
    List (String × List (Nat × Bool)) :=
  t.filter (fun e => e.1 != ns)

/-- Modelled from the spec: DataProvider.setData together with the row
store update (services/data.provider and store/dataSource/data.store,
not under src/).  It replaces the record sequence and resets the proxy
and display orders to the natural order.  The plugin's rebuild path
passes silent = true, which preserves the named hidden-row map (spec
section 2: the namespaces of the trim registry coexist without
clobbering each other); a full, non-silent update — the grouping-off
path — discards the grouping engine's namespace (spec section 4.3:
"clear the 'grouping' hidden-map namespace entirely"; spec section 3:
the hidden-row map is "cleared entirely when grouping is turned off")
while the other namespaces stay untouched (spec section 3: the engine
"must never set/clear entries in other namespaces"). -/
def setDataRow (row : RowStore) (data : List Record) (silent : Bool) : RowStore :=
  { source := data
    proxyItems := List.range data.length
    items := List.range data.length
    trimmed := if silent then row.trimmed else removeNs row.trimmed tGROUPING }

/-- Modelled from the spec: the default expanded state of a newly
created group header (spec section 4.1: "a newly created group header
defaults to this state if present, else to a configured default"). -/
def expFlag (prevExp : List (Option Nat × Bool)) (expandedAll : Bool) (v : Option Nat) : Bool :=
  match prevExp.lookup v with
  | some b => b
  | none => expandedAll

/-- Split a record sequence into maximal runs of adjacent records with
equal keys (the scan of spec section 4.1 closes an open group exactly
when the key at the current level stops matching, so each maximal
adjacent run becomes one group of that level). -/
def runsBy (key : Record → Option (Option Nat)) :
    List Record → List (Option (Option Nat) × List Record)
  | [] => []
  | r :: rest =>
      match runsBy key rest with
      | [] => [(key r, [r])]
      | (v, run) :: more =>
          if key r == v then (key r, r :: run) :: more
          else (key r, [r]) :: (v, run) :: more

/-- Modelled from the spec: one level of the Grouping Builder (spec
section 4.1).  mk builds the nested block of one run (the next level
down), mkHeader creates the group header of a run from its key value
and the positions of the top level of its block (its direct children).
start is the physical position, in the final grouped sequence, of the
first record emitted.  Returns the flattened block together with the
positions of its top-level entries.  A run whose key is undefined (its
group path is shorter than this level) is emitted ungrouped (spec
section 7: a shorter path is never a fatal condition). -/
def buildRuns (mk : Nat → List Record → List Record × List Nat)
    (mkHeader : Option Nat → List Nat → Record) :
    Nat → List (Option (Option Nat) × List Record) → List Record × List Nat
  | _, [] => ([], [])
  | start, (none, run) :: more =>
      let nxt := buildRuns mk mkHeader (start + run.length) more
      (run ++ nxt.1, List.range' start run.length ++ nxt.2)
  | start, (some v, run) :: more =>
      let sub := mk (start + 1) run
      let nxt := buildRuns mk mkHeader (start + 1 + sub.1.length) more
      (mkHeader v sub.2 :: (sub.1 ++ nxt.1), start :: nxt.2)

/-- Modelled from the spec: the recursive scan of the Grouping Builder
(spec section 4.1): group the records of one level into adjacent-key
runs, emit a header in front of every run (inserted immediately before
the first record belonging to it) and recurse one level deeper inside
each run; fuel counts the remaining levels (the initial fuel is the
group path length, so the recursion stops below the innermost level and
emits the data records themselves). -/
def buildLevel (props : List Nat) (prevExp : List (Option Nat × Bool)) (expandedAll : Bool) :
    Nat → Nat → Nat → List Record → List Record × List Nat
  | 0, _level, start, records => (records, List.range' start records.length)
  | fuel + 1, level, start, records =>
      buildRuns (fun s run => buildLevel props prevExp expandedAll fuel (level + 1) s run)
        (fun v tops => Record.group v level (expFlag prevExp expandedAll v) tops)
        start (runsBy (fun r => getAt (props.map (fieldOf r)) level) records)

/-- The direct child index list of the record at index i (empty when the
record is not a group header). -/
def directChildren (source : List Record) (i : Nat) : List Nat :=
  match getAt source i with
  | some (Record.group _ _ _ cs) => cs
  | _ => []

/-- Modelled from the spec: the transitive flattening of child index
lists (spec section 4.2: the full descendant set of a header, recursing
through nested headers independent of their own expanded flags).  fuel
bounds the recursion depth; descendantIndices supplies the sequence
length, which bounds any actual nesting. -/
def descendantsAux (source : List Record) : Nat → List Nat → List Nat
  | 0, _ => []
  | fuel + 1, is =>
      is.foldr (fun i acc =>
        i :: ((match getAt source i with
               | some (Record.group _ _ _ cs) => descendantsAux source fuel cs
               | _ => []) ++ acc)) []

/-- All strict descendants (data rows and nested headers) reachable from
a direct child index list. -/
def descendantIndices (source : List Record) (cs : List Nat) : List Nat :=
  descendantsAux source source.length cs

/-- True when the record is a collapsed group header. -/
def isCollapsedGroup : Record → Bool
  | Record.group _ _ e _ => !e
  | _ => false

/-- The result record of gatherGrouping. -/
structure GatherResult where
  sourceWithGroups : List Record
  depth : Nat
  trimmed : List (Nat × Bool)
deriving DecidableEq

/-- Modelled from the spec: grouping.service gatherGrouping (not under
src/), the Grouping Builder contract of spec section 4.1: from flat
records, the ordered grouping props and prior-expansion hints, produce
the grouped sequence, the depth (the group path length, i.e. the number
of grouping levels) and the hidden map: after the scan, every record
below a collapsed header — its transitively flattened child list — is
marked hidden. -/
def gatherGrouping (src : List Record) (props : List Nat)
    (prevExp : List (Option Nat × Bool)) (expandedAll : Bool) : GatherResult :=
  let out := (buildLevel props prevExp expandedAll props.length 0 0 src).1
  let collapsed := (List.range out.length).filter (fun i =>
    match getAt out i with
    | some r => isCollapsedGroup r
    | none => false)
  { sourceWithGroups := out
    depth := props.length
    trimmed := ((collapsed.map (fun i => descendantIndices out (directChildren out i))).flatten).map
      (fun j => (j, true)) }

/-- The result of the expand service. -/
structure ExpandResult where
  trimmed : List (Nat × Bool)
  items : Option (List Nat)
  source : List Record
deriving DecidableEq

/-- The result of the collapse service. -/
structure CollapseResult where
  trimmed : List (Nat × Bool)
  source : List Record
deriving DecidableEq

/-- Modelled from the spec: doExpand of grouping.row.expand.service (not
under src/), the Expand half of the Expand/Collapse Controller (spec
section 4.2): set expanded = true on the header, clear hidden = false
for exactly the header's direct child index list (one level down), and
for any direct child absent from the display order return a new display
order with the missing children inserted immediately after the header's
display position, in original relative order; when the record at the
index is not a group header the service is a no-op (spec section 7:
expand requested on a physical index that is not a group header is a
no-op, the engine must not corrupt state on a wrong index). -/
def doExpand (i virtualIndex : Nat) (source : List Record) (items : List Nat) : ExpandResult :=
  match getAt source i with
  | some (Record.group v d _ cs) =>
      let missing := cs.filter (fun c => !(items.contains c))
      { trimmed := cs.map (fun c => (c, false))
        items := if missing.isEmpty then none
                 else some (items.take (virtualIndex + 1) ++ missing ++ items.drop (virtualIndex + 1))
        source := source.set i (Record.group v d true cs) }
  | _ => { trimmed := [], items := none, source := source }

/-- Modelled from the spec: doCollapse of grouping.row.expand.service
(not under src/), the Collapse half of the Expand/Collapse Controller
(spec section 4.2): set expanded = false on the header and set hidden =
true for the header's full descendant child index set (recursive
flatten, independent of the descendants' own expanded flags); a no-op
on a record that is not a group header (spec section 7). -/
def doCollapse (i : Nat) (source : List Record) : CollapseResult :=
  match getAt source i with
  | some (Record.group v d _ cs) =>
      { trimmed := (descendantIndices source cs).map (fun j => (j, true))
        source := source.set i (Record.group v d false cs) }
  | _ => { trimmed := [], source := source }

/-- GroupingRowPlugin.onFocus (plugin lines 38-42): the before-cell-focus
handler prevents the event exactly when the event's model is a group
header; it performs no state change.  Returned as (prevented, state). -/
def onFocus (st : GridState) (model : Record) : Bool × GridState :=
  (isGrouping model, st)

/-- The check of one loop step of onDrag (plugin line 133): the record
source[items[i]], where source is the proxy-ordered gathered source.  An
out-of-range position yields no record and does not prevent. -/
def dragHit (st : GridState) (i : Nat) : Bool :=
  match getAt st.row.items i with
  | some p =>
      match getAt (getSourceGather st.row false).source p with
      | some m => isGrouping m
      | none => false
  | none => false

/-- GroupingRowPlugin.onDrag (plugin lines 125-140): scan the display
positions from min(from, to) inclusive to max(from, to) exclusive; the
event is prevented as soon as one position holds a group header.  The
handler performs no state change.  Returned as (prevented, state). -/
def onDrag (st : GridState) (fromIdx toIdx : Nat) : Bool × GridState :=
  let lo := if fromIdx ≤ toIdx then fromIdx else toIdx
  let hi := if fromIdx ≤ toIdx then toIdx else fromIdx
  ((List.range' lo (hi - lo)).any (fun i => dragHit st i), st)

/-- GroupingRowPlugin.onExpand (plugin lines 45-68): resolve the virtual
index to a physical index through the display order, read the record
from the proxy-ordered gathered source, and branch on its GROUP_EXPANDED
flag: when falsy call doExpand, merge its patch over the current
"grouping" namespace and, when it returns a display order, install it;
otherwise call doCollapse, merge its patch and clear the focus (plugin
line 63 calls revogrid.clearFocus unconditionally).  Finally write the
gathered source back and publish the merged map under "grouping".  When
the virtual index resolves to no record the handler faults before any
write (modelled as the unchanged state). -/
def onExpand (st : GridState) (virtualIndex : Nat) : GridState :=
  let src := (getSourceGather st.row false).source
  let groupingMap := nsGet st.row.trimmed tGROUPING
  match getPhysical st.row virtualIndex with
  | none => st
  | some i =>
      match getAt src i with
      | none => st
      | some model =>
          if !(groupExpanded model) then
            let r := doExpand i virtualIndex src st.row.items
            let newTrimmed := mergeMap groupingMap r.trimmed
            let row1 :=
              match r.items with
              | some its => setItemsRow st.row its
              | none => st.row
            let row2 := { row1 with source := r.source }
            { st with row := addTrimmed row2 newTrimmed tGROUPING }
          else
            let r := doCollapse i src
            let newTrimmed := mergeMap groupingMap r.trimmed
            let row2 := { st.row with source := r.source }
            { st with row := addTrimmed row2 newTrimmed tGROUPING, focus := none }

/-- True when the record at index i of the sequence is a group header
(isGrouping(source[index]); an out-of-range index has no record and is
not a group header). -/
def isGroupAt (source : List Record) (i : Nat) : Bool :=
  match getAt source i with
  | some m => isGrouping m
  | none => false

/-- GroupingRowPlugin.beforeFilterApply (plugin lines 176-182): for every
entry of the before-filter map whose value is truthy and whose record is
a group header, overwrite the value with false; every other entry keeps
its value, and no entry is added or removed. -/
def beforeFilterApply (itemsToFilter : List (Nat × Bool)) (source : List Record) :
    List (Nat × Bool) :=
  itemsToFilter.map (fun e => if e.2 && isGroupAt source e.1 then (e.1, false) else e)

/-- GroupingRowPlugin.doSourceUpdate (plugin lines 185-203): when props
are configured, gather the current non-group records together with the
expansion memory of the current group headers, rebuild through
gatherGrouping, install the grouped sequence with a silent data update
(preserving the named hidden-row map), publish the depth and publish the
new hidden map under the "grouping" namespace.  expandedAll carries the
only relevant field a caller's options spread over the gathered
prevExpanded (setGrouping passes its options; the after-sort path passes
nothing, i.e. false). -/
def doSourceUpdate (st : GridState) (expandedAll : Bool) : GridState :=
  match st.options with
  | some (p :: ps) =>
      let g := getSourceGather st.row true
      let r := gatherGrouping g.source (p :: ps) g.prevExpanded expandedAll
      let row1 := setDataRow st.row r.sourceWithGroups true
      { st with row := addTrimmed row1 r.trimmed tGROUPING, depth := r.depth }
  | _ => st

/-- GroupingRowPlugin.onDataSet (plugin lines 210-222): when props are
configured and a non-empty source arrives, strip incoming group headers,
rebuild through gatherGrouping with the host-provided default expansion
state, replace the event's source with the grouped sequence, publish the
depth and publish the hidden map under "grouping".  Returns the new
state and the event's (possibly replaced) source. -/
def onDataSet (st : GridState) (incoming : List Record) : GridState × List Record :=
  match st.options with
  | some (p :: ps) =>
      if incoming.isEmpty then (st, incoming)
      else
        let src := incoming.filter (fun s => !(isGrouping s))
        let r := gatherGrouping src (p :: ps) [] st.hostExpandedAll
        ({ st with row := addTrimmed st.row r.trimmed tGROUPING, depth := r.depth },
         r.sourceWithGroups)
  | _ => (st, incoming)

/-- GroupingRowPlugin.setColumnGrouping (plugin lines 107-114): when the
column list is non-empty, set the PSEUDO_GROUP_COLUMN flag on its first
column and report true; an empty list reports false. -/
def setColumnGrouping (cols : List Column) : List Column × Bool :=
  match cols with
  | [] => ([], false)
  | c :: rest => ({ c with groupingColumn := true } :: rest, true)

/-- The column loop shared by setColumns (plugin lines 116-122) and
setGrouping (plugin lines 240-245): walk the column areas in the fixed
priority order and flag the first area whose list is non-empty, then
stop. -/
def applyColumnGrouping (a : ColumnAreas) : ColumnAreas :=
  match columnTypes.find? (fun t => !(getColumns a t).isEmpty) with
  | some t => setColumnsOf a t (setColumnGrouping (getColumns a t)).1
  | none => a

/-- Remove the PSEUDO_GROUP_COLUMN flag from every column of a list
(delete c[PSEUDO_GROUP_COLUMN], plugin lines 257-261). -/
def clearColumnFlags (cols : List Column) : List Column :=
  cols.map (fun c => { c with groupingColumn := false })

/-- GroupingRowPlugin.clearGrouping (plugin lines 252-271): drop the
grouping flag from every column of every area, gather the current source
without its group headers and install it through a full (non-silent)
data update. -/
def clearGrouping (st : GridState) : GridState :=
  let cols : ColumnAreas :=
    { pinStart := clearColumnFlags st.columns.pinStart
      regular := clearColumnFlags st.columns.regular
      pinEnd := clearColumnFlags st.columns.pinEnd }
  let g := getSourceGather st.row true
  { st with columns := cols, row := setDataRow st.row g.source false }

/-- GroupingRowPlugin.setGrouping (plugin lines 225-249): store the
options; with empty props clear the grouping entirely; otherwise rebuild
the source when one exists and flag the grouping-indicator column by the
priority scan.  (The subscription toggling has no state of its own.) -/
def setGrouping (st : GridState) (props : List Nat) (expandedAll : Bool) : GridState :=
  let st0 := { st with options := some props }
  if props.isEmpty then clearGrouping st0
  else
    let st1 :=
      if (getSourceGather st0.row false).source.isEmpty then st0
      else doSourceUpdate st0 expandedAll
    { st1 with columns := applyColumnGrouping st1.columns }

/-- The number of columns over all areas carrying the grouping-indicator
flag. -/
def flagCount (a : ColumnAreas) : Nat :=
  (a.pinStart ++ a.regular ++ a.pinEnd).countP (fun c => c.groupingColumn)

/-- The column-indicator selection policy written from the spec's words
(spec section 4.3): scan the areas in the fixed priority order; the
first area containing at least one column receives the indicator flag on
its first column; stop at the first match.  Used to compare the code's
column update against the spec. -/
def specIndicator (a : ColumnAreas) : ColumnAreas :=
  match a.pinStart with
  | c :: rest => { a with pinStart := { c with groupingColumn := true } :: rest }
  | [] =>
      match a.regular with
      | c :: rest => { a with regular := { c with groupingColumn := true } :: rest }
      | [] =>
          match a.pinEnd with
          | c :: rest => { a with pinEnd := { c with groupingColumn := true } :: rest }
          | [] => a

/-- An empty column collection. -/
def noCols : ColumnAreas := { pinStart := [], regular := [], pinEnd := [] }

/-- Concrete state for the C1 counterexample: a single group header,
displayed at position 0. -/
def c1state : GridState :=
  { row := { source := [Record.group (some 0) 0 true []], proxyItems := [0], items := [0],
             trimmed := [] },
    columns := noCols, focus := none, options := some [0], hostExpandedAll := false, depth := 1 }

/-- Concrete state for the C2 counterexample: two data rows whose proxy
order is reversed relative to the physical order. -/
def c2state : GridState :=
  { row := { source := [Record.data [(0, 1)], Record.data [(0, 2)]], proxyItems := [1, 0],
             items := [1, 0], trimmed := [] },
    columns := noCols, focus := some 5, options := some [0], hostExpandedAll := false, depth := 0 }

/-- Concrete state for the C2 witness: two data rows in natural order;
the expand toggle resolves to a data row. -/
def c2wstate : GridState :=
  { row := { source := [Record.data [(0, 1)], Record.data [(0, 2)]], proxyItems := [0, 1],
             items := [0, 1], trimmed := [("filter", [(0, true)])] },
    columns := noCols, focus := some 1, options := some [0], hostExpandedAll := false, depth := 0 }

/-- Concrete state for the C6 counterexample: the pinned-end area already
carries a flagged column while the pinned-start area has an unflagged
one. -/
def c6state : GridState :=
  { row := { source := [], proxyItems := [], items := [], trimmed := [] },
    columns := { pinStart := [{ colId := 0, groupingColumn := false }], regular := [],
                 pinEnd := [{ colId := 1, groupingColumn := true }] },
    focus := none, options := none, hostExpandedAll := false, depth := 0 }

/-- Concrete state for the C6 witness: flag-free columns with an empty
pinned-start area and a non-empty regular area. -/
def c6wstate : GridState :=
  { row := { source := [], proxyItems := [], items := [], trimmed := [] },
    columns := { pinStart := [], regular := [{ colId := 2, groupingColumn := false },
                 { colId := 3, groupingColumn := false }],
                 pinEnd := [{ colId := 4, groupingColumn := false }] },
    focus := none, options := none, hostExpandedAll := false, depth := 0 }

/-- Concrete state for the C7 counterexample: an expanded group header
whose only child is row 1, while the focus sits on row 2, outside the
set the collapse hides. -/
def c7state : GridState :=
  { row := { source := [Record.group (some 1) 0 true [1], Record.data [(0, 1)],
             Record.data [(0, 2)]], proxyItems := [0, 1, 2], items := [0, 1, 2],
             trimmed := [] },
    columns := noCols, focus := some 2, options := some [0], hostExpandedAll := false, depth := 1 }

/-- Concrete state for the C7 witness: a collapsed group header whose
only child, row 1, is hidden and missing from the display order. -/
def c7wstate : GridState :=
  { row := { source := [Record.group (some 1) 0 false [1], Record.data [(0, 1)]],
             proxyItems := [0, 1], items := [0], trimmed := [("grouping", [(1, true)])] },
    columns := noCols, focus := some 0, options := some [0], hostExpandedAll := false, depth := 1 }

/-- Concrete state for the C8 witness: a re-sorted source whose group
headers (value 5 expanded, value 7 collapsed) sit at indices 0 and 2. -/
def c8state : GridState :=
  { row := { source := [Record.group (some 7) 0 false [1], Record.data [(0, 7)],
             Record.group (some 5) 0 true [3], Record.data [(0, 5)]],
             proxyItems := [0, 1, 2, 3], items := [0, 2, 3], trimmed := [] },
    columns := noCols, focus := none, options := some [0], hostExpandedAll := false, depth := 1 }

/-- Concrete state for the C9 witness: a foreign namespace, "filter",
holds an entry that the grouping engine must not disturb. -/
def c9state : GridState :=
  { row := { source := [Record.group (some 1) 0 true [1], Record.data [(0, 1)]],
             proxyItems := [0, 1], items := [0, 1],
             trimmed := [("filter", [(1, true)])] },
    columns := { pinStart := [{ colId := 0, groupingColumn := true }], regular := [],
                 pinEnd := [] },
    focus := none, options := some [0], hostExpandedAll := false, depth := 1 }

/-- Concrete row store for the C10 witness: a proxy-reordered store with
an expanded header, a collapsed header and a data row. -/
def c10row : RowStore :=
  { source := [Record.group (some 3) 0 true [2], Record.group (some 4) 0 false [],
               Record.data [(0, 3)]],
    proxyItems := [0, 2, 1], items := [0, 2], trimmed := [] }

/-! Helper lemmas about the finite-map operations. -/

theorem lookup_upsert {α β : Type} [BEq α] [LawfulBEq α] [DecidableEq α]
    (m : List (α × β)) (k x : α) (v : β) :
    List.lookup x (upsert m k v) = if x = k then some v else List.lookup x m := by
  induction m with
  | nil =>
      by_cases h : x = k
      · simp [upsert, List.lookup, h]
      · simp [upsert, List.lookup, h, beq_eq_false_iff_ne.mpr h]
  | cons e rest ih =>
      obtain ⟨k', v'⟩ := e
      by_cases hk : k' = k
      · subst hk
        by_cases h : x = k'
        · simp [upsert, List.lookup, h]
        · simp [upsert, List.lookup, h, beq_eq_false_iff_ne.mpr h]
      · have hbk : (k' == k) = false := beq_eq_false_iff_ne.mpr hk
        by_cases h : x = k'
        · subst h
          simp [upsert, List.lookup, hbk, hk]
        · simp [upsert, List.lookup, hbk, h, beq_eq_false_iff_ne.mpr h, ih]

theorem mergeMap_nil {α β : Type} [BEq α] (a : List (α × β)) : mergeMap a [] = a := rfl

theorem lookup_cons_eq {α β : Type} [BEq α] [LawfulBEq α] (k : α) (v : β) (l : List (α × β)) :
    List.lookup k ((k, v) :: l) = some v := by
  rw [List.lookup_cons]
  simp

theorem lookup_cons_ne {α β : Type} [BEq α] (k x : α) (v : β) (l : List (α × β))
    (h : (x == k) = false) :
    List.lookup x ((k, v) :: l) = List.lookup x l := by
  rw [List.lookup_cons, h]

theorem nsGet_addTrimmed_self (row : RowStore) (m : List (Nat × Bool)) (ns : String) :
    nsGet (addTrimmed row m ns).trimmed ns = m := by
  simp [nsGet, addTrimmed, lookup_upsert]

theorem nsGet_addTrimmed_other (row : RowStore) (m : List (Nat × Bool)) (ns ns' : String)
    (h : ns ≠ ns') :
    nsGet (addTrimmed row m ns').trimmed ns = nsGet row.trimmed ns := by
  simp [nsGet, addTrimmed, lookup_upsert, h]

theorem lookup_removeNs_self (t : List (String × List (Nat × Bool))) (ns : String) :
    List.lookup ns (removeNs t ns) = none := by
  simp only [removeNs]
  induction t with
  | nil => rfl
  | cons e rest ih =>
      obtain ⟨k, v⟩ := e
      by_cases h : k = ns
      · subst h
        simpa using ih
      · have hb : (k != ns) = true := bne_iff_ne.mpr h
        have hx : (ns == k) = false := beq_eq_false_iff_ne.mpr (fun hh => h hh.symm)
        simp [List.filter_cons, hb, List.lookup, hx, ih]

theorem lookup_removeNs_other (t : List (String × List (Nat × Bool))) (ns ns' : String)
    (h : ns ≠ ns') :
    List.lookup ns (removeNs t ns') = List.lookup ns t := by
  simp only [removeNs]
  induction t with
  | nil => rfl
  | cons e rest ih =>
      obtain ⟨k, v⟩ := e
      by_cases hk : k = ns'
      · have hx : (ns == k) = false := beq_eq_false_iff_ne.mpr (by rw [hk]; exact h)
        have hb : (k != ns') = false := by simp [hk]
        simp [List.filter_cons, hb, List.lookup, hx, ih]
      · have hb : (k != ns') = true := bne_iff_ne.mpr hk
        cases hbe : ns == k with
        | true => simp [List.filter_cons, hb, List.lookup, hbe]
        | false => simp [List.filter_cons, hb, List.lookup, hbe, ih]

/-! Helper lemmas about getSource. -/

theorem gatherStep_skip (source : List Record) (w : Bool) (acc : SourceGather) (i : Nat)
    (h : getAt source i = none) : gatherStep source w acc i = acc := by
  simp [gatherStep, h]

theorem gatherStep_push_false (source : List Record) (acc : SourceGather) (i : Nat)
    (m : Record) (h : getAt source i = some m) :
    gatherStep source false acc i = { acc with source := acc.source ++ [m] } := by
  simp [gatherStep, h]

theorem gatherStep_push_data (source : List Record) (acc : SourceGather) (i : Nat)
    (m : Record) (h : getAt source i = some m) (hg : isGrouping m = false) :
    gatherStep source true acc i = { acc with source := acc.source ++ [m] } := by
  simp [gatherStep, h, hg]

theorem gatherStep_group (source : List Record) (acc : SourceGather) (i : Nat)
    (m : Record) (h : getAt source i = some m) (hg : isGrouping m = true) :
    gatherStep source true acc i =
      if groupExpanded m then
        { acc with prevExpanded := upsert acc.prevExpanded (groupKeyValue m) true }
      else acc := by
  simp [gatherStep, h, hg]

theorem gatherLoop_source_false (source : List Record) (is : List Nat) :
    ∀ acc : SourceGather,
      (gatherLoop source false acc is).source = acc.source ++ is.filterMap (getAt source) := by
  induction is with
  | nil => intro acc; simp [gatherLoop]
  | cons i rest ih =>
      intro acc
      cases h : getAt source i with
      | none => simp [gatherLoop, gatherStep_skip source false acc i h, h, ih]
      | some m => simp [gatherLoop, gatherStep_push_false source acc i m h, h, ih]

theorem gatherLoop_source_true (source : List Record) (is : List Nat) :
    ∀ acc : SourceGather,
      (gatherLoop source true acc is).source =
        acc.source ++ (is.filterMap (getAt source)).filter (fun m => !(isGrouping m)) := by
  induction is with
  | nil => intro acc; simp [gatherLoop]
  | cons i rest ih =>
      intro acc
      cases h : getAt source i with
      | none => simp [gatherLoop, gatherStep_skip source true acc i h, h, ih]
      | some m =>
          cases hg : isGrouping m with
          | false =>
              simp [gatherLoop, gatherStep_push_data source acc i m h hg, h, hg, ih,
                List.filter_cons]
          | true =>
              cases he : groupExpanded m <;>
                simp [gatherLoop, gatherStep_group source acc i m h hg, h, hg, he, ih,
                  List.filter_cons]

theorem gatherLoop_prev_true (source : List Record) (is : List Nat) :
    ∀ acc : SourceGather,
      (∀ v b, List.lookup v acc.prevExpanded = some b → b = true) →
      ∀ v b, List.lookup v (gatherLoop source true acc is).prevExpanded = some b → b = true := by
  induction is with
  | nil => intro acc hacc; simpa [gatherLoop] using hacc
  | cons i rest ih =>
      intro acc hacc v b hb
      rw [gatherLoop] at hb
      refine ih _ ?_ v b hb
      intro v' b' hb'
      cases h : getAt source i with
      | none =>
          rw [gatherStep_skip source true acc i h] at hb'
          exact hacc v' b' hb'
      | some m =>
          cases hg : isGrouping m with
          | false =>
              rw [gatherStep_push_data source acc i m h hg] at hb'
              exact hacc v' b' hb'
          | true =>
              rw [gatherStep_group source acc i m h hg] at hb'
              cases he : groupExpanded m with
              | false =>
                  rw [if_neg (by simp [he])] at hb'
                  exact hacc v' b' hb'
              | true =>
                  rw [if_pos (by simp [he])] at hb'
                  simp only at hb'
                  rw [lookup_upsert] at hb'
                  by_cases hv : v' = groupKeyValue m
                  · rw [if_pos hv] at hb'
                    exact (Option.some.inj hb').symm
                  · rw [if_neg hv] at hb'
                    exact hacc v' b' hb'

theorem gatherLoop_prev_mem (source : List Record) (is : List Nat) :
    ∀ (acc : SourceGather) (v : Option Nat),
      (List.lookup v (gatherLoop source true acc is).prevExpanded = some true ↔
        (List.lookup v acc.prevExpanded = some true ∨
          ∃ i ∈ is, ∃ d cs, getAt source i = some (Record.group v d true cs))) := by
  induction is with
  | nil => intro acc v; simp [gatherLoop]
  | cons i rest ih =>
      intro acc v
      rw [gatherLoop, ih]
      cases h : getAt source i with
      | none => simp [gatherStep_skip source true acc i h, h]
      | some m =>
          cases m with
          | data fs =>
              rw [gatherStep_push_data source acc i (Record.data fs) h rfl]
              simp [h]
          | group gv d e cs =>
              cases e with
              | false =>
                  rw [gatherStep_group source acc i _ h rfl]
                  rw [if_neg (by simp [groupExpanded])]
                  simp [h]
              | true =>
                  rw [gatherStep_group source acc i _ h rfl]
                  rw [if_pos (by simp [groupExpanded])]
                  simp only [groupKeyValue, lookup_upsert]
                  by_cases hv : v = gv
                  · subst hv
                    simp [h]
                  · rw [if_neg hv]
                    constructor
                    · intro hor
                      rcases hor with h1 | ⟨j, hj, d2, cs2, h3⟩
                      · exact Or.inl h1
                      · exact Or.inr ⟨j, List.mem_cons_of_mem _ hj, d2, cs2, h3⟩
                    · intro hor
                      rcases hor with h1 | ⟨j, hj, d2, cs2, h3⟩
                      · exact Or.inl h1
                      · rcases List.mem_cons.mp hj with hj' | hj'
                        · subst hj'
                          rw [h] at h3
                          have h4 := Option.some.inj h3
                          injection h4 with e1 e2 e3 e4
                          exact absurd e1.symm hv
                        · exact Or.inr ⟨j, hj', d2, cs2, h3⟩

/-! Helper lemmas about the Builder. -/

theorem getAt_mem {α : Type} {l : List α} {i : Nat} {a : α} (h : getAt l i = some a) :
    a ∈ l := by
  unfold getAt at h
  exact List.get?_mem h

theorem runsBy_cons_nil (key : Record → Option (Option Nat)) (r0 : Record)
    (rest : List Record) (hE : runsBy key rest = []) :
    runsBy key (r0 :: rest) = [(key r0, [r0])] := by
  rw [runsBy, hE]

theorem runsBy_cons_cons (key : Record → Option (Option Nat)) (r0 : Record)
    (rest : List Record) (v' : Option (Option Nat)) (run' : List Record)
    (more : List (Option (Option Nat) × List Record))
    (hE : runsBy key rest = (v', run') :: more) :
    runsBy key (r0 :: rest) =
      if key r0 == v' then (key r0, r0 :: run') :: more
      else (key r0, [r0]) :: (v', run') :: more := by
  rw [runsBy, hE]

/-- Every record of a run produced by runsBy comes from the input list. -/
theorem runsBy_mem (key : Record → Option (Option Nat)) :
    ∀ (l : List Record) (v : Option (Option Nat)) (run : List Record) (r : Record),
      (v, run) ∈ runsBy key l → r ∈ run → r ∈ l := by
  intro l
  induction l with
  | nil =>
      intro v run r h
      simp [runsBy] at h
  | cons r0 rest ih =>
      intro v run r h hr
      cases hE : runsBy key rest with
      | nil =>
          rw [runsBy_cons_nil key r0 rest hE] at h
          simp at h
          rw [h.2] at hr
          simp at hr
          rw [hr]
          exact List.mem_cons_self _ _
      | cons p more =>
          obtain ⟨v', run'⟩ := p
          rw [runsBy_cons_cons key r0 rest v' run' more hE] at h
          by_cases hkey : (key r0 == v') = true
          · rw [if_pos hkey] at h
            rcases List.mem_cons.mp h with h1 | h2
            · have hrun : run = r0 :: run' := (Prod.mk.injEq _ _ _ _ ▸ h1).2
              rw [hrun] at hr
              rcases List.mem_cons.mp hr with hr1 | hr2
              · rw [hr1]; exact List.mem_cons_self _ _
              · exact List.mem_cons_of_mem _
                  (ih v' run' r (hE ▸ List.mem_cons_self _ _) hr2)
            · exact List.mem_cons_of_mem _
                (ih v run r (hE ▸ List.mem_cons_of_mem _ h2) hr)
          · rw [if_neg hkey] at h
            rcases List.mem_cons.mp h with h1 | h2
            · have hrun : run = [r0] := (Prod.mk.injEq _ _ _ _ ▸ h1).2
              rw [hrun] at hr
              simp at hr
              rw [hr]
              exact List.mem_cons_self _ _
            · exact List.mem_cons_of_mem _ (ih v run r (hE ▸ h2) hr)

/-- The property that a group header carries the default expanded state
computed by expFlag from its own key value. -/
def headerFlagOk (prevExp : List (Option Nat × Bool)) (expandedAll : Bool) (r : Record) : Prop :=
  ∀ v d e cs, r = Record.group v d e cs → e = expFlag prevExp expandedAll v

theorem headerFlagOk_of_nonGroup {prevExp : List (Option Nat × Bool)} {expandedAll : Bool}
    {r : Record} (h : isGrouping r = false) : headerFlagOk prevExp expandedAll r := by
  intro v d e cs hr
  rw [hr] at h
  simp [isGrouping] at h

/-- Every record emitted by buildRuns either comes through mk from a run,
is a run record emitted as-is, or is a header built by mkHeader. -/
theorem buildRuns_headers (prevExp : List (Option Nat × Bool)) (expandedAll : Bool)
    (mk : Nat → List Record → List Record × List Nat) (level : Nat)
    (hmk : ∀ s run, (∀ x ∈ run, isGrouping x = false) →
      ∀ r ∈ (mk s run).1, headerFlagOk prevExp expandedAll r) :
    ∀ (runs : List (Option (Option Nat) × List Record)),
      (∀ v run, (v, run) ∈ runs → ∀ x ∈ run, isGrouping x = false) →
      ∀ start r,
        r ∈ (buildRuns mk
          (fun v tops => Record.group v level (expFlag prevExp expandedAll v) tops)
          start runs).1 →
        headerFlagOk prevExp expandedAll r := by
  intro runs
  induction runs with
  | nil =>
      intro _ start r hmem
      simp [buildRuns] at hmem
  | cons p more ih =>
      intro hruns start r hmem
      obtain ⟨v, run⟩ := p
      cases v with
      | none =>
          rw [buildRuns] at hmem
          simp only [List.mem_append] at hmem
          rcases hmem with h1 | h2
          · exact headerFlagOk_of_nonGroup
              (hruns none run (List.mem_cons_self _ _) r h1)
          · exact ih (fun v' run' hm => hruns v' run' (List.mem_cons_of_mem _ hm))
              _ r h2
      | some gv =>
          rw [buildRuns] at hmem
          simp only [List.mem_cons, List.mem_append] at hmem
          rcases hmem with h1 | h2 | h3
          · intro v' d' e' cs' hr
            rw [h1] at hr
            injection hr with e1 e2 e3 e4
            rw [← e1]
            exact e3.symm
          · exact hmk _ run (hruns (some gv) run (List.mem_cons_self _ _)) r h2
          · exact ih (fun v' run' hm => hruns v' run' (List.mem_cons_of_mem _ hm))
              _ r h3

/-- Every group header of the grouped sequence built from header-free
records carries the expanded state computed by expFlag from its key. -/
theorem buildLevel_headers (props : List Nat) (prevExp : List (Option Nat × Bool))
    (expandedAll : Bool) :
    ∀ (fuel level start : Nat) (records : List Record),
      (∀ x ∈ records, isGrouping x = false) →
      ∀ r ∈ (buildLevel props prevExp expandedAll fuel level start records).1,
        headerFlagOk prevExp expandedAll r := by
  intro fuel
  induction fuel with
  | zero =>
      intro level start records hrec r hr
      rw [buildLevel] at hr
      exact headerFlagOk_of_nonGroup (hrec r hr)
  | succ fuel ih =>
      intro level start records hrec r hr
      rw [buildLevel] at hr
      refine buildRuns_headers prevExp expandedAll _ level ?_ _ ?_ start r hr
      · intro s run hrun
        exact ih (level + 1) s run hrun
      · intro v run hm x hx
        exact hrec x (runsBy_mem _ records v run x hm hx)

/-! Characterizations of getSource. -/

theorem getSource_source_false (row : RowStore) :
    (getSourceGather row false).source = row.proxyItems.filterMap (getAt row.source) := by
  unfold getSourceGather
  rw [gatherLoop_source_false]
  simp

theorem getSource_source_true (row : RowStore) :
    (getSourceGather row true).source =
      (row.proxyItems.filterMap (getAt row.source)).filter (fun m => !(isGrouping m)) := by
  unfold getSourceGather
  rw [gatherLoop_source_true]
  simp

theorem getSource_prev_lookup (row : RowStore) (v : Option Nat) :
    List.lookup v (getSourceGather row true).prevExpanded = some true ↔
      ∃ i ∈ row.proxyItems, ∃ d cs, getAt row.source i = some (Record.group v d true cs) := by
  unfold getSourceGather
  rw [gatherLoop_prev_mem]
  simp [List.lookup]

theorem getSource_prev_true (row : RowStore) (v : Option Nat) (b : Bool)
    (h : List.lookup v (getSourceGather row true).prevExpanded = some b) : b = true := by
  unfold getSourceGather at h
  refine gatherLoop_prev_true row.source row.proxyItems _ ?_ v b h
  intro v' b' hb'
  simp [List.lookup] at hb'

/-! The claims. -/

/-- Claim C10: getSource with withoutGrouping = true returns the store's
records in proxy order with group headers removed, and its prevExpanded
map holds an entry — always true — for a group key value exactly when
some group header with that value is expanded; collapsed headers leave
no entry. -/
theorem c10_get_source (row : RowStore) :
    (getSourceGather row true).source =
      (row.proxyItems.filterMap (getAt row.source)).filter (fun m => !(isGrouping m)) ∧
    ∀ v : Option Nat,
      (List.lookup v (getSourceGather row true).prevExpanded = some true ↔
        ∃ i ∈ row.proxyItems, ∃ d cs, getAt row.source i = some (Record.group v d true cs)) ∧
      ∀ b, List.lookup v (getSourceGather row true).prevExpanded = some b → b = true := by
  exact ⟨getSource_source_true row, fun v =>
    ⟨getSource_prev_lookup row v, fun b h => getSource_prev_true row v b h⟩⟩

/-- Claim C10 witness: the characterization evaluated on a concrete
proxy-reordered store with one expanded and one collapsed header. -/
theorem c10_get_source_witness :
    (getSourceGather c10row true).source =
      (c10row.proxyItems.filterMap (getAt c10row.source)).filter (fun m => !(isGrouping m)) ∧
    ∀ v : Option Nat,
      (List.lookup v (getSourceGather c10row true).prevExpanded = some true ↔
        ∃ i ∈ c10row.proxyItems, ∃ d cs, getAt c10row.source i = some (Record.group v d true cs)) ∧
      ∀ b, List.lookup v (getSourceGather c10row true).prevExpanded = some b → b = true :=
  c10_get_source c10row

/-- Claim C5: a before-cell-focus event is prevented exactly when the
target record is a group header, and the handler changes no state. -/
theorem c5_focus_policy (st : GridState) (model : Record) :
    ((onFocus st model).1 = true ↔ ∃ v d e cs, model = Record.group v d e cs) ∧
    (onFocus st model).2 = st := by
  refine ⟨?_, rfl⟩
  cases model with
  | data fs => simp [onFocus, isGrouping]
  | group v d e cs =>
      simp only [onFocus, isGrouping]
      exact ⟨fun _ => ⟨v, d, e, cs, rfl⟩, fun _ => trivial⟩

/-- Claim C4: after the before-filter hook, an entry of the pending
filter map reads false whenever its record is a group header and keeps
its prior value otherwise, and the key set of the map is unchanged. -/
theorem c4_filter_headers (itemsToFilter : List (Nat × Bool)) (source : List Record) (i : Nat) :
    List.lookup i (beforeFilterApply itemsToFilter source) =
      (List.lookup i itemsToFilter).map (fun b => if isGroupAt source i then false else b) ∧
    (beforeFilterApply itemsToFilter source).map Prod.fst = itemsToFilter.map Prod.fst := by
  constructor
  · induction itemsToFilter with
    | nil => rfl
    | cons e rest ih =>
        obtain ⟨k, b⟩ := e
        have hstep : beforeFilterApply ((k, b) :: rest) source =
            (if b && isGroupAt source k then (k, false) else (k, b)) ::
              beforeFilterApply rest source := rfl
        rw [hstep]
        cases hgb : (b && isGroupAt source k) with
        | true =>
            rw [if_pos rfl]
            by_cases hik : i = k
            · subst hik
              rw [lookup_cons_eq, lookup_cons_eq]
              have hb : b = true := by
                cases b
                · simp at hgb
                · rfl
              have hg : isGroupAt source i = true := by
                cases hgi : isGroupAt source i
                · rw [hb, hgi] at hgb
                  simp at hgb
                · rfl
              rw [hb]
              simp [hg]
            · have hbe : (i == k) = false := beq_eq_false_iff_ne.mpr hik
              rw [lookup_cons_ne k i false _ hbe, lookup_cons_ne k i b rest hbe]
              exact ih
        | false =>
            rw [if_neg (by simp)]
            by_cases hik : i = k
            · subst hik
              rw [lookup_cons_eq, lookup_cons_eq]
              cases hgi : isGroupAt source i with
              | true =>
                  have hb : b = false := by
                    cases b
                    · rfl
                    · rw [hgi] at hgb
                      simp at hgb
                  rw [hb]
                  simp [hgi]
              | false => simp [hgi]
            · have hbe : (i == k) = false := beq_eq_false_iff_ne.mpr hik
              rw [lookup_cons_ne k i b _ hbe, lookup_cons_ne k i b rest hbe]
              exact ih
  · induction itemsToFilter with
    | nil => rfl
    | cons e rest ih =>
        obtain ⟨k, b⟩ := e
        have hstep : beforeFilterApply ((k, b) :: rest) source =
            (if b && isGroupAt source k then (k, false) else (k, b)) ::
              beforeFilterApply rest source := rfl
        rw [hstep]
        cases hgb : (b && isGroupAt source k) with
        | true =>
            rw [if_pos rfl]
            simpa using ih
        | false =>
            rw [if_neg (by simp)]
            simpa using ih

/-- Claim C1 (amended) counterexample to the claim as stated: a one-row
drag over a group header at the span's lower endpoint is prevented even
though no display position lies strictly between from = 0 and to = 1. -/
theorem c1_counterexample :
    (onDrag c1state 0 1).1 = true ∧ ∀ i : Nat, 0 < i → i < 1 → False := by
  refine ⟨by decide, ?_⟩
  intro i h1 h2
  omega

/-- Claim C1 (amended): a row-reorder event is prevented exactly when
some display position in the half-open direction-normalized span
[min(from, to), max(from, to)) — including the lower endpoint — holds a
group header, and the handler changes no state. -/
theorem c1_reorder_span (st : GridState) (fromIdx toIdx : Nat) :
    ((onDrag st fromIdx toIdx).1 = true ↔
      ∃ i, min fromIdx toIdx ≤ i ∧ i < max fromIdx toIdx ∧ dragHit st i = true) ∧
    (onDrag st fromIdx toIdx).2 = st := by
  refine ⟨?_, rfl⟩
  by_cases hle : fromIdx ≤ toIdx
  · have hmin : min fromIdx toIdx = fromIdx := min_eq_left hle
    have hmax : max fromIdx toIdx = toIdx := max_eq_right hle
    unfold onDrag
    rw [if_pos hle, if_pos hle]
    simp only [List.any_eq_true, hmin, hmax]
    constructor
    · rintro ⟨i, hi, hhit⟩
      have hm := List.mem_range'_1.mp hi
      exact ⟨i, by omega, by omega, hhit⟩
    · rintro ⟨i, h1, h2, hhit⟩
      exact ⟨i, List.mem_range'_1.mpr (by omega), hhit⟩
  · have hlt : toIdx ≤ fromIdx := Nat.le_of_lt (Nat.lt_of_not_le hle)
    have hmin : min fromIdx toIdx = toIdx := min_eq_right hlt
    have hmax : max fromIdx toIdx = fromIdx := max_eq_left hlt
    unfold onDrag
    rw [if_neg hle, if_neg hle]
    simp only [List.any_eq_true, hmin, hmax]
    constructor
    · rintro ⟨i, hi, hhit⟩
      have hm := List.mem_range'_1.mp hi
      exact ⟨i, by omega, by omega, hhit⟩
    · rintro ⟨i, h1, h2, hhit⟩
      exact ⟨i, List.mem_range'_1.mpr (by omega), hhit⟩

theorem countP_clearFlags (l : List Column) :
    (clearColumnFlags l).countP (fun c => c.groupingColumn) = 0 := by
  induction l with
  | nil => rfl
  | cons c rest ih => simp [clearColumnFlags, List.countP_cons, ih]

/-- Claim C3: after grouping is turned off (setGrouping with empty
props, which runs clearGrouping), the source holds no group headers, the
"grouping" hidden-map namespace is empty, and no column of any area
carries the grouping-indicator flag. -/
theorem c3_grouping_off (st : GridState) (ea : Bool) :
    ((setGrouping st [] ea).row.source.all (fun r => !(isGrouping r))) = true ∧
    nsGet (setGrouping st [] ea).row.trimmed tGROUPING = [] ∧
    flagCount (setGrouping st [] ea).columns = 0 := by
  have hset : setGrouping st [] ea = clearGrouping { st with options := some ([] : List Nat) } :=
    rfl
  rw [hset]
  refine ⟨?_, ?_, ?_⟩
  · show ((getSourceGather st.row true).source.all (fun r => !(isGrouping r))) = true
    rw [List.all_eq_true]
    intro r hr
    rw [getSource_source_true] at hr
    exact (List.mem_filter.mp hr).2
  · show nsGet (removeNs st.row.trimmed tGROUPING) tGROUPING = []
    unfold nsGet
    rw [lookup_removeNs_self]
    rfl
  · show ((clearColumnFlags st.columns.pinStart ++ clearColumnFlags st.columns.regular ++
      clearColumnFlags st.columns.pinEnd).countP (fun c => c.groupingColumn)) = 0
    rw [List.countP_append, List.countP_append, countP_clearFlags, countP_clearFlags,
      countP_clearFlags]

/-- Claim C2 counterexample to the claim as stated: with a proxy order
diverging from the physical order, an expand toggle resolving to a data
row rewrites the stored source in proxy order, so the source sequence
changes. -/
theorem c2_counterexample :
    getPhysical c2state.row 0 = some 1 ∧
    getAt (getSourceGather c2state.row false).source 1 = some (Record.data [(0, 1)]) ∧
    (onExpand c2state 0).row.source ≠ c2state.row.source := by
  exact ⟨by decide, by decide, by decide⟩

/-- Claim C2 (amended): an expand toggle whose virtual index resolves to
a record that is not a group header leaves the row-items list, the
"grouping" namespace and the focus unchanged, and writes the source back
as its proxy-ordered gathering (hence unchanged exactly when the proxy
order is the identity). -/
theorem c2_nonheader_noop (st : GridState) (v i : Nat) (fs : List (Nat × Nat))
    (hres : getPhysical st.row v = some i)
    (hrec : getAt (getSourceGather st.row false).source i = some (Record.data fs)) :
    (onExpand st v).row.items = st.row.items ∧
    nsGet (onExpand st v).row.trimmed tGROUPING = nsGet st.row.trimmed tGROUPING ∧
    (onExpand st v).focus = st.focus ∧
    (onExpand st v).row.source = (getSourceGather st.row false).source := by
  unfold onExpand
  rw [hres]
  simp only [hrec, doExpand, groupExpanded, Bool.not_false, if_true, mergeMap_nil]
  refine ⟨by trivial, ?_, by trivial, by trivial⟩
  exact nsGet_addTrimmed_self _ _ _

/-- Claim C2 witness: the amended no-op evaluated on a concrete state
whose proxy order is the identity. -/
theorem c2_nonheader_noop_witness :
    getPhysical c2wstate.row 1 = some 1 ∧
    getAt (getSourceGather c2wstate.row false).source 1 = some (Record.data [(0, 2)]) ∧
    ((onExpand c2wstate 1).row.items = c2wstate.row.items ∧
     nsGet (onExpand c2wstate 1).row.trimmed tGROUPING = nsGet c2wstate.row.trimmed tGROUPING ∧
     (onExpand c2wstate 1).focus = c2wstate.focus ∧
     (onExpand c2wstate 1).row.source = (getSourceGather c2wstate.row false).source) :=
  ⟨by decide, by decide, c2_nonheader_noop c2wstate 1 1 [(0, 2)] (by decide) (by decide)⟩

theorem applyColumnGrouping_eq_spec (a : ColumnAreas) :
    applyColumnGrouping a = specIndicator a := by
  obtain ⟨p, r, e⟩ := a
  cases p with
  | cons c pr => rfl
  | nil =>
      cases r with
      | cons c rr => rfl
      | nil =>
          cases e with
          | cons c re => rfl
          | nil => rfl

theorem doSourceUpdate_columns (st : GridState) (ea : Bool) :
    (doSourceUpdate st ea).columns = st.columns := by
  cases hopt : st.options with
  | none =>
      unfold doSourceUpdate
      rw [hopt]
  | some props =>
      cases props with
      | nil =>
          unfold doSourceUpdate
          rw [hopt]
      | cons p ps =>
          unfold doSourceUpdate
          rw [hopt]

theorem setGrouping_cons_columns (st : GridState) (p : Nat) (ps : List Nat) (ea : Bool) :
    (setGrouping st (p :: ps) ea).columns = applyColumnGrouping st.columns := by
  unfold setGrouping
  rw [if_neg (by simp)]
  by_cases hsrc :
      (getSourceGather ({ st with options := some (p :: ps) }).row false).source.isEmpty = true
  · rw [if_pos hsrc]
  · rw [if_neg hsrc]
    show applyColumnGrouping
        (doSourceUpdate { st with options := some (p :: ps) } ea).columns =
      applyColumnGrouping st.columns
    rw [doSourceUpdate_columns]

theorem countP_flagged_head (c : Column) (l : List Column)
    (h0 : ((c :: l).countP (fun x => x.groupingColumn)) = 0) :
    (({ c with groupingColumn := true } :: l).countP (fun x => x.groupingColumn)) = 1 := by
  simp only [List.countP_cons] at h0 ⊢
  cases hc : c.groupingColumn with
  | true =>
      rw [hc, if_pos rfl] at h0
      omega
  | false =>
      rw [hc, if_neg (by simp)] at h0
      have hz : l.countP (fun x => x.groupingColumn) = 0 := by omega
      rw [if_pos trivial, hz]

theorem flagCount_specIndicator (a : ColumnAreas) (h0 : flagCount a = 0)
    (hne : a.pinStart ≠ [] ∨ a.regular ≠ [] ∨ a.pinEnd ≠ []) :
    flagCount (specIndicator a) = 1 := by
  obtain ⟨p, r, e⟩ := a
  cases p with
  | cons c pr =>
      have hsplit : (c :: pr) ++ r ++ e = c :: (pr ++ r ++ e) := by simp
      rw [flagCount] at h0
      rw [hsplit] at h0
      show (({ c with groupingColumn := true } :: pr) ++ r ++ e).countP
          (fun x => x.groupingColumn) = 1
      have hsplit2 : ({ c with groupingColumn := true } : Column) :: pr ++ r ++ e =
          { c with groupingColumn := true } :: (pr ++ r ++ e) := by simp
      rw [hsplit2]
      exact countP_flagged_head c (pr ++ r ++ e) h0
  | nil =>
      cases r with
      | cons c rr =>
          have hsplit : ([] : List Column) ++ (c :: rr) ++ e = c :: (rr ++ e) := by simp
          rw [flagCount] at h0
          rw [hsplit] at h0
          show (([] : List Column) ++ ({ c with groupingColumn := true } :: rr) ++ e).countP
              (fun x => x.groupingColumn) = 1
          have hsplit2 : ([] : List Column) ++ ({ c with groupingColumn := true } :: rr) ++ e =
              { c with groupingColumn := true } :: (rr ++ e) := by simp
          rw [hsplit2]
          exact countP_flagged_head c (rr ++ e) h0
      | nil =>
          cases e with
          | cons c re =>
              have hsplit : ([] : List Column) ++ ([] : List Column) ++ (c :: re) = c :: re := by
                simp
              rw [flagCount] at h0
              rw [hsplit] at h0
              show (([] : List Column) ++ ([] : List Column) ++
                  ({ c with groupingColumn := true } :: re)).countP
                  (fun x => x.groupingColumn) = 1
              have hsplit2 : ([] : List Column) ++ ([] : List Column) ++
                  ({ c with groupingColumn := true } :: re) =
                  { c with groupingColumn := true } :: re := by simp
              rw [hsplit2]
              exact countP_flagged_head c re h0
          | nil =>
              rcases hne with h | h | h <;> exact absurd rfl h

/-- Claim C6 counterexample to the claim as stated: applying grouping
does not clear a pre-existing indicator flag, so a configuration whose
pinned-end area already carries the flag ends with two flagged columns,
not exactly one. -/
theorem c6_counterexample :
    flagCount ((setGrouping c6state [5] false).columns) = 2 ∧
    flagCount ((setGrouping c6state [5] false).columns) ≠ 1 := by
  exact ⟨by decide, by decide⟩

/-- Claim C6 (amended): applying grouping with non-empty keys to a
configuration with no pre-existing indicator flag and at least one
non-empty area flags exactly one column: the first column of the first
non-empty area in the fixed priority order, where the scan stops. -/
theorem c6_indicator (st : GridState) (p : Nat) (ps : List Nat) (ea : Bool)
    (h0 : flagCount st.columns = 0)
    (hne : st.columns.pinStart ≠ [] ∨ st.columns.regular ≠ [] ∨ st.columns.pinEnd ≠ []) :
    (setGrouping st (p :: ps) ea).columns = specIndicator st.columns ∧
    flagCount (setGrouping st (p :: ps) ea).columns = 1 := by
  rw [setGrouping_cons_columns st p ps ea, applyColumnGrouping_eq_spec]
  exact ⟨rfl, flagCount_specIndicator st.columns h0 hne⟩

/-- Claim C6 witness: the amended indicator policy evaluated on concrete
flag-free columns whose first non-empty area is the regular one. -/
theorem c6_indicator_witness :
    flagCount c6wstate.columns = 0 ∧
    (c6wstate.columns.pinStart ≠ [] ∨ c6wstate.columns.regular ≠ [] ∨
      c6wstate.columns.pinEnd ≠ []) ∧
    ((setGrouping c6wstate [3] false).columns = specIndicator c6wstate.columns ∧
     flagCount (setGrouping c6wstate [3] false).columns = 1) :=
  ⟨by decide, Or.inr (Or.inl (by decide)),
    c6_indicator c6wstate 3 [] false (by decide) (Or.inr (Or.inl (by decide)))⟩

/-- Claim C7 counterexample to the claim as stated: collapsing a header
clears the focus even though the focused record (index 2) lies outside
the newly hidden set (index 1 only). -/
theorem c7_counterexample :
    c7state.focus = some 2 ∧
    (doCollapse 0 (getSourceGather c7state.row false).source).trimmed = [(1, true)] ∧
    (onExpand c7state 0).focus = none := by
  exact ⟨rfl, by decide, by decide⟩

/-- Claim C7 (amended): an expand toggle resolving to a group header
runs doExpand when the header is collapsed — merging its patch over the
"grouping" namespace, installing any returned display order and leaving
the focus alone — and runs doCollapse when it is expanded, merging its
patch and always clearing the focus, whether or not a focused record
lies within the newly hidden set. -/
theorem c7_expand_toggle (st : GridState) (v i : Nat) (gv : Option Nat) (d : Nat) (e : Bool)
    (cs : List Nat)
    (hres : getPhysical st.row v = some i)
    (hrec : getAt (getSourceGather st.row false).source i = some (Record.group gv d e cs)) :
    (e = false →
      ((onExpand st v).row.source =
          (doExpand i v (getSourceGather st.row false).source st.row.items).source ∧
        nsGet (onExpand st v).row.trimmed tGROUPING =
          mergeMap (nsGet st.row.trimmed tGROUPING)
            (doExpand i v (getSourceGather st.row false).source st.row.items).trimmed ∧
        (onExpand st v).row.items =
          ((doExpand i v (getSourceGather st.row false).source st.row.items).items).getD
            st.row.items ∧
        (onExpand st v).focus = st.focus)) ∧
    (e = true →
      ((onExpand st v).row.source =
          (doCollapse i (getSourceGather st.row false).source).source ∧
        nsGet (onExpand st v).row.trimmed tGROUPING =
          mergeMap (nsGet st.row.trimmed tGROUPING)
            (doCollapse i (getSourceGather st.row false).source).trimmed ∧
        (onExpand st v).row.items = st.row.items ∧
        (onExpand st v).focus = none)) := by
  cases e with
  | false =>
      refine ⟨fun _ => ?_, fun h => absurd h (by simp)⟩
      unfold onExpand
      rw [hres]
      simp only [hrec, groupExpanded, Bool.not_false, if_true]
      cases hitems : (doExpand i v (getSourceGather st.row false).source st.row.items).items with
      | none =>
          simp only [hitems]
          exact ⟨by trivial, nsGet_addTrimmed_self _ _ _, by trivial, by trivial⟩
      | some its =>
          simp only [hitems]
          exact ⟨by trivial, nsGet_addTrimmed_self _ _ _, by trivial, by trivial⟩
  | true =>
      refine ⟨fun h => absurd h (by simp), fun _ => ?_⟩
      unfold onExpand
      rw [hres]
      simp only [hrec, groupExpanded, Bool.not_true, Bool.false_eq_true, if_false]
      exact ⟨by trivial, nsGet_addTrimmed_self _ _ _, by trivial, by trivial⟩

/-- Claim C7 witness: the amended branch behavior evaluated on a
concrete collapsed header whose hidden child must be re-inserted. -/
theorem c7_expand_toggle_witness :
    getPhysical c7wstate.row 0 = some 0 ∧
    getAt (getSourceGather c7wstate.row false).source 0 =
      some (Record.group (some 1) 0 false [1]) ∧
    ((false = false →
      ((onExpand c7wstate 0).row.source =
          (doExpand 0 0 (getSourceGather c7wstate.row false).source c7wstate.row.items).source ∧
        nsGet (onExpand c7wstate 0).row.trimmed tGROUPING =
          mergeMap (nsGet c7wstate.row.trimmed tGROUPING)
            (doExpand 0 0 (getSourceGather c7wstate.row false).source c7wstate.row.items).trimmed ∧
        (onExpand c7wstate 0).row.items =
          ((doExpand 0 0 (getSourceGather c7wstate.row false).source
            c7wstate.row.items).items).getD c7wstate.row.items ∧
        (onExpand c7wstate 0).focus = c7wstate.focus)) ∧
    (false = true →
      ((onExpand c7wstate 0).row.source =
          (doCollapse 0 (getSourceGather c7wstate.row false).source).source ∧
        nsGet (onExpand c7wstate 0).row.trimmed tGROUPING =
          mergeMap (nsGet c7wstate.row.trimmed tGROUPING)
            (doCollapse 0 (getSourceGather c7wstate.row false).source).trimmed ∧
        (onExpand c7wstate 0).row.items = c7wstate.row.items ∧
        (onExpand c7wstate 0).focus = none))) :=
  ⟨by decide, by decide,
    c7_expand_toggle c7wstate 0 0 (some 1) 0 false [1] (by decide) (by decide)⟩

/-- Claim C8: the after-sort rebuild runs the Builder over exactly the
current non-group records in proxy order, with expansion memory captured
from the group headers of the current source before the rebuild, so a
group key is expanded in the rebuilt sequence exactly when one of its
headers was expanded before — whatever its physical index was. -/
theorem c8_sort_rebuild (st : GridState) (p : Nat) (ps : List Nat)
    (hopts : st.options = some (p :: ps)) :
    (doSourceUpdate st false).row.source =
      (gatherGrouping (getSourceGather st.row true).source (p :: ps)
        (getSourceGather st.row true).prevExpanded false).sourceWithGroups ∧
    (getSourceGather st.row true).source =
      (st.row.proxyItems.filterMap (getAt st.row.source)).filter (fun m => !(isGrouping m)) ∧
    ∀ j gv d e cs,
      getAt (doSourceUpdate st false).row.source j = some (Record.group gv d e cs) →
      (e = true ↔ ∃ k ∈ st.row.proxyItems, ∃ d2 cs2,
        getAt st.row.source k = some (Record.group gv d2 true cs2)) := by
  have hsrc : (doSourceUpdate st false).row.source =
      (gatherGrouping (getSourceGather st.row true).source (p :: ps)
        (getSourceGather st.row true).prevExpanded false).sourceWithGroups := by
    unfold doSourceUpdate
    rw [hopts]
    rfl
  refine ⟨hsrc, getSource_source_true st.row, ?_⟩
  intro j gv d e cs hj
  rw [hsrc] at hj
  have hmem : Record.group gv d e cs ∈
      (gatherGrouping (getSourceGather st.row true).source (p :: ps)
        (getSourceGather st.row true).prevExpanded false).sourceWithGroups := getAt_mem hj
  have hmem' : Record.group gv d e cs ∈
      (buildLevel (p :: ps) (getSourceGather st.row true).prevExpanded false
        (p :: ps).length 0 0 (getSourceGather st.row true).source).1 := hmem
  have hfree : ∀ x ∈ (getSourceGather st.row true).source, isGrouping x = false := by
    intro x hx
    rw [getSource_source_true] at hx
    simpa using (List.mem_filter.mp hx).2
  have hok := buildLevel_headers (p :: ps) (getSourceGather st.row true).prevExpanded false
    (p :: ps).length 0 0 (getSourceGather st.row true).source hfree
    (Record.group gv d e cs) hmem' gv d e cs rfl
  rw [hok]
  unfold expFlag
  cases hl : List.lookup gv (getSourceGather st.row true).prevExpanded with
  | none =>
      constructor
      · intro hfalse
        exact absurd hfalse (by simp)
      · intro hex
        have hsome := (getSource_prev_lookup st.row gv).mpr hex
        rw [hl] at hsome
        exact absurd hsome (by simp)
  | some b =>
      have hb := getSource_prev_true st.row gv b hl
      rw [hb]
      constructor
      · intro _
        exact (getSource_prev_lookup st.row gv).mp (by rw [hl, hb])
      · intro _
        rfl

/-- Claim C8 witness: the rebuild property evaluated on a concrete
re-sorted source with one expanded and one collapsed group. -/
theorem c8_sort_rebuild_witness :
    c8state.options = some [0] ∧
    ((doSourceUpdate c8state false).row.source =
      (gatherGrouping (getSourceGather c8state.row true).source [0]
        (getSourceGather c8state.row true).prevExpanded false).sourceWithGroups ∧
    (getSourceGather c8state.row true).source =
      (c8state.row.proxyItems.filterMap (getAt c8state.row.source)).filter
        (fun m => !(isGrouping m)) ∧
    ∀ j gv d e cs,
      getAt (doSourceUpdate c8state false).row.source j = some (Record.group gv d e cs) →
      (e = true ↔ ∃ k ∈ c8state.row.proxyItems, ∃ d2 cs2,
        getAt c8state.row.source k = some (Record.group gv d2 true cs2))) :=
  ⟨rfl, c8_sort_rebuild c8state 0 [] rfl⟩

/-! Frame lemmas for the hidden-row-map namespaces. -/

theorem onExpand_frame (st : GridState) (v : Nat) (ns : String) (hns : ns ≠ tGROUPING) :
    nsGet (onExpand st v).row.trimmed ns = nsGet st.row.trimmed ns := by
  unfold onExpand
  cases hres : getPhysical st.row v with
  | none => rfl
  | some i =>
      cases hrec : getAt (getSourceGather st.row false).source i with
      | none => simp only [hrec]
      | some model =>
          cases hexp : groupExpanded model with
          | false =>
              simp only [hrec, hexp, Bool.not_false, if_true]
              cases hitems :
                  (doExpand i v (getSourceGather st.row false).source st.row.items).items with
              | none =>
                  simp only [hitems]
                  rw [nsGet_addTrimmed_other _ _ _ _ hns]
              | some its =>
                  simp only [hitems]
                  rw [nsGet_addTrimmed_other _ _ _ _ hns]
                  rfl
          | true =>
              simp only [hrec, hexp, Bool.not_true, Bool.false_eq_true, if_false]
              rw [nsGet_addTrimmed_other _ _ _ _ hns]

theorem doSourceUpdate_frame (st : GridState) (ea : Bool) (ns : String)
    (hns : ns ≠ tGROUPING) :
    nsGet (doSourceUpdate st ea).row.trimmed ns = nsGet st.row.trimmed ns := by
  cases hopt : st.options with
  | none =>
      unfold doSourceUpdate
      rw [hopt]
  | some props =>
      cases props with
      | nil =>
          unfold doSourceUpdate
          rw [hopt]
      | cons p ps =>
          simp only [doSourceUpdate, hopt]
          rw [nsGet_addTrimmed_other _ _ _ _ hns]
          rfl

theorem onDataSet_frame (st : GridState) (inc : List Record) (ns : String)
    (hns : ns ≠ tGROUPING) :
    nsGet ((onDataSet st inc).1).row.trimmed ns = nsGet st.row.trimmed ns := by
  cases hopt : st.options with
  | none =>
      unfold onDataSet
      rw [hopt]
  | some props =>
      cases props with
      | nil =>
          unfold onDataSet
          rw [hopt]
      | cons p ps =>
          simp only [onDataSet, hopt]
          by_cases hinc : inc.isEmpty = true
          · rw [if_pos hinc]
          · rw [if_neg hinc]
            rw [nsGet_addTrimmed_other _ _ _ _ hns]

theorem clearGrouping_frame (st : GridState) (ns : String) (hns : ns ≠ tGROUPING) :
    nsGet (clearGrouping st).row.trimmed ns = nsGet st.row.trimmed ns := by
  show nsGet (removeNs st.row.trimmed tGROUPING) ns = nsGet st.row.trimmed ns
  unfold nsGet
  rw [lookup_removeNs_other _ _ _ hns]

theorem setGrouping_frame (st : GridState) (props : List Nat) (ea : Bool) (ns : String)
    (hns : ns ≠ tGROUPING) :
    nsGet (setGrouping st props ea).row.trimmed ns = nsGet st.row.trimmed ns := by
  cases props with
  | nil =>
      show nsGet (clearGrouping { st with options := some ([] : List Nat) }).row.trimmed ns =
        nsGet st.row.trimmed ns
      exact clearGrouping_frame { st with options := some ([] : List Nat) } ns hns
  | cons p ps =>
      unfold setGrouping
      rw [if_neg (by simp)]
      by_cases hsrc :
          (getSourceGather ({ st with options := some (p :: ps) }).row false).source.isEmpty = true
      · rw [if_pos hsrc]
      · rw [if_neg hsrc]
        show nsGet (doSourceUpdate { st with options := some (p :: ps) } ea).row.trimmed ns =
          nsGet st.row.trimmed ns
        exact doSourceUpdate_frame { st with options := some (p :: ps) } ea ns hns

/-- Claim C9 (amended): every hidden-row-map write the engine performs
targets the "grouping" namespace — every handler and the rebuild leave
every other namespace untouched (the filter hook edits only the filter's
own pending map and no namespace at all, and the focus and drag handlers
write no state) — and grouping-off discards the "grouping" namespace
alone. -/
theorem c9_namespace_frame (st : GridState) (ns : String) (hns : ns ≠ tGROUPING) :
    (∀ v, nsGet (onExpand st v).row.trimmed ns = nsGet st.row.trimmed ns) ∧
    (∀ ea, nsGet (doSourceUpdate st ea).row.trimmed ns = nsGet st.row.trimmed ns) ∧
    (∀ inc, nsGet ((onDataSet st inc).1).row.trimmed ns = nsGet st.row.trimmed ns) ∧
    nsGet (clearGrouping st).row.trimmed ns = nsGet st.row.trimmed ns ∧
    (∀ props ea, nsGet (setGrouping st props ea).row.trimmed ns = nsGet st.row.trimmed ns) ∧
    (∀ fromIdx toIdx, (onDrag st fromIdx toIdx).2 = st) ∧
    (∀ m, (onFocus st m).2 = st) :=
  ⟨fun v => onExpand_frame st v ns hns,
   fun ea => doSourceUpdate_frame st ea ns hns,
   fun inc => onDataSet_frame st inc ns hns,
   clearGrouping_frame st ns hns,
   fun props ea => setGrouping_frame st props ea ns hns,
   fun _ _ => rfl,
   fun _ => rfl⟩

/-- Claim C9 witness: the frame property evaluated at a concrete state
whose "filter" namespace holds an entry. -/
theorem c9_namespace_frame_witness :
    ("filter" : String) ≠ tGROUPING ∧
    ((∀ v, nsGet (onExpand c9state v).row.trimmed "filter" = nsGet c9state.row.trimmed "filter") ∧
    (∀ ea, nsGet (doSourceUpdate c9state ea).row.trimmed "filter" =
      nsGet c9state.row.trimmed "filter") ∧
    (∀ inc, nsGet ((onDataSet c9state inc).1).row.trimmed "filter" =
      nsGet c9state.row.trimmed "filter") ∧
    nsGet (clearGrouping c9state).row.trimmed "filter" = nsGet c9state.row.trimmed "filter" ∧
    (∀ props ea, nsGet (setGrouping c9state props ea).row.trimmed "filter" =
      nsGet c9state.row.trimmed "filter") ∧
    (∀ fromIdx toIdx, (onDrag c9state fromIdx toIdx).2 = c9state) ∧
    (∀ m, (onFocus c9state m).2 = c9state)) :=
  ⟨by decide, c9_namespace_frame c9state "filter" (by decide)⟩

end RevoGrouping
